import Mathlib

/-!
# Verification of `min_map` (`src/lib.rs`)

Shallow embedding of the Rust crate `min_map`: a fixed-size hash map
`MinMap<K, V, H, SIZE>` which only remembers the minimum value set for a
given hash bucket.

Modelling choices:
* The const generic `SIZE : usize` becomes a type-level `Nat` parameter.
* The field `table : [V; SIZE]` becomes a `List V`; the array type's length
  guarantee `table.length = SIZE` is established by the constructors and
  carried as an explicit hypothesis where needed.
* The `BuildHasher` value is modelled by the function `K → Nat` it denotes:
  for a fixed builder, `build_hasher`/`Hash::hash`/`finish() as usize` is a
  deterministic function from keys to machine integers; an arbitrary
  `K → Nat` covers every such function.
* Rust panics (remainder by zero in `hash` when `SIZE = 0`, out-of-bounds
  indexing) become `Option`: `none` is a panic. `hash` panics exactly when
  `SIZE = 0`; list indexing uses `getElem?` so the out-of-bounds branch is
  `none`.
* `V: Copy + Ord` becomes `[LinearOrder V]`; `std::cmp::min` is `min`.
-/

/-- `MinMap<K, V, H, SIZE>` from `src/lib.rs`.  `table` is the backing
array `[V; SIZE]`, `hash_builder` the denotation of the `H: BuildHasher`
value (key ↦ `finish() as usize`).  The `PhantomData<K>` field is absorbed
into the type parameter. -/
structure MinMap (K : Type) (V : Type) (SIZE : Nat) where
  table : List V
  hash_builder : K → Nat

namespace MinMap

variable {K V : Type} [LinearOrder V] {SIZE : Nat}

/-- `MinMap::new(init)`: builds the table `[init; SIZE]` with a fresh
`RandomState`.  The random state is modelled by an arbitrary hash function
`rs` supplied from outside. -/
def new (rs : K → Nat) (init : V) : MinMap K V SIZE :=
  { hash_builder := rs, table := List.replicate SIZE init }

/-- `MinMap::with_hash_builder(hash_builder, init)`: builds the table
`[init; SIZE]` with the caller-supplied hash builder. -/
def with_hash_builder (hb : K → Nat) (init : V) : MinMap K V SIZE :=
  { hash_builder := hb, table := List.replicate SIZE init }

/-- `MinMap::hash(key)`: `hasher.finish() as usize % SIZE`.  The remainder
operation panics (`none`) when `SIZE = 0`. -/
def hash (m : MinMap K V SIZE) (key : K) : Option Nat :=
  if SIZE = 0 then none else some (m.hash_builder key % SIZE)

/-- `MinMap::set(key, value)`:
`self.table[hash] = min(self.table[hash], value)`.
The read `self.table[hash]` panics (`none`) when out of bounds. -/
def set (m : MinMap K V SIZE) (key : K) (value : V) : Option (MinMap K V SIZE) :=
  match m.hash key with
  | none => none
  | some i =>
    match m.table[i]? with
    | none => none
    | some cur => some { m with table := m.table.set i (min cur value) }

/-- `MinMap::get(key)`: `self.table[self.hash(key)]`. -/
def get (m : MinMap K V SIZE) (key : K) : Option V :=
  match m.hash key with
  | none => none
  | some i => m.table[i]?

/-- `Index<K> for MinMap`: `&self.table[self.hash(index)]` (reading through
the returned reference). -/
def index (m : MinMap K V SIZE) (key : K) : Option V :=
  match m.hash key with
  | none => none
  | some i => m.table[i]?

/-- Run a sequence of `set` calls left to right; any panic aborts. -/
def setAll (m : MinMap K V SIZE) : List (K × V) → Option (MinMap K V SIZE)
  | [] => some m
  | (k, v) :: ops =>
    match m.set k v with
    | none => none
    | some m2 => m2.setAll ops

end MinMap

/-- The values that a sequence of `set` calls `ops` sends to bucket `i`:
those `v` whose key hashes to bucket `i` under `hb`, in call order.  This is
the spec-side description of what reaches a slot. -/
def bucket_values {K V : Type} (hb : K → Nat) (SIZE : Nat)
    (ops : List (K × V)) (i : Nat) : List V :=
  (ops.filter fun p => hb p.1 % SIZE == i).map Prod.snd

/-- The minimum, under the total order, of `init` and all elements of a
list.  Spec-side: "the minimum over (a) `init` and (b) every value sent to
the bucket". -/
def min_over {V : Type} [LinearOrder V] (init : V) (vs : List V) : V :=
  vs.foldl min init

theorem bucket_values_nil {K V : Type} (hb : K → Nat) (SIZE : Nat) (i : Nat) :
    bucket_values (V := V) hb SIZE ([] : List (K × V)) i = [] := rfl

theorem bucket_values_cons {K V : Type} (hb : K → Nat) (SIZE : Nat)
    (k : K) (v : V) (ops : List (K × V)) (i : Nat) :
    bucket_values hb SIZE ((k, v) :: ops) i =
      if hb k % SIZE = i then v :: bucket_values hb SIZE ops i
      else bucket_values hb SIZE ops i := by
  simp only [bucket_values, List.filter_cons]
  by_cases h : hb k % SIZE = i
  · simp [h]
  · simp [h]

theorem bucket_values_append {K V : Type} (hb : K → Nat) (SIZE : Nat)
    (ops1 ops2 : List (K × V)) (i : Nat) :
    bucket_values hb SIZE (ops1 ++ ops2) i =
      bucket_values hb SIZE ops1 i ++ bucket_values hb SIZE ops2 i := by
  simp [bucket_values]

theorem min_over_nil {V : Type} [LinearOrder V] (init : V) :
    min_over init ([] : List V) = init := rfl

theorem min_over_cons {V : Type} [LinearOrder V] (init v : V) (vs : List V) :
    min_over init (v :: vs) = min_over (min init v) vs := rfl

theorem min_over_le {V : Type} [LinearOrder V] (vs : List V) :
    ∀ init : V, min_over init vs ≤ init := by
  induction vs with
  | nil => intro init; exact le_of_eq (min_over_nil init)
  | cons v vs ih =>
    intro init
    calc min_over init (v :: vs) = min_over (min init v) vs := min_over_cons ..
    _ ≤ min init v := ih (min init v)
    _ ≤ init := min_le_left ..

theorem min_over_append {V : Type} [LinearOrder V] (vs1 vs2 : List V) (init : V) :
    min_over init (vs1 ++ vs2) = min_over (min_over init vs1) vs2 := by
  simp [min_over, List.foldl_append]

namespace MinMap

variable {K V : Type} {SIZE : Nat}

theorem hash_pos_eq (m : MinMap K V SIZE) (hpos : 0 < SIZE) (k : K) :
    m.hash k = some (m.hash_builder k % SIZE) := by
  simp [hash, Nat.pos_iff_ne_zero.mp hpos]

theorem bucket_lt (hpos : 0 < SIZE) (hb : K → Nat) (k : K) :
    hb k % SIZE < SIZE := Nat.mod_lt _ hpos

theorem get_spec (m : MinMap K V SIZE) (hpos : 0 < SIZE) (k : K) :
    m.get k = m.table[m.hash_builder k % SIZE]? := by
  simp [get, hash_pos_eq m hpos k]

theorem index_spec (m : MinMap K V SIZE) (hpos : 0 < SIZE) (k : K) :
    m.index k = m.table[m.hash_builder k % SIZE]? := by
  simp [index, hash_pos_eq m hpos k]

theorem set_spec [LinearOrder V] (m : MinMap K V SIZE) (hlen : m.table.length = SIZE)
    (hpos : 0 < SIZE) (k : K) (v : V) :
    ∃ cur, m.table[m.hash_builder k % SIZE]? = some cur ∧
      m.set k v =
        some { m with table := m.table.set (m.hash_builder k % SIZE) (min cur v) } := by
  have hlt : m.hash_builder k % SIZE < m.table.length := by
    rw [hlen]; exact Nat.mod_lt _ hpos
  refine ⟨m.table.get ⟨m.hash_builder k % SIZE, hlt⟩, ?_, ?_⟩
  · rw [List.getElem?_eq_getElem hlt]; rfl
  · have h := List.getElem?_eq_getElem hlt
    simp only [set, hash_pos_eq m hpos k, h]
    rfl

theorem setAll_nil [LinearOrder V] (m : MinMap K V SIZE) : m.setAll [] = some m := rfl

theorem setAll_append [LinearOrder V] (ops1 ops2 : List (K × V)) :
    ∀ m : MinMap K V SIZE,
      m.setAll (ops1 ++ ops2) =
        match m.setAll ops1 with
        | none => none
        | some m1 => m1.setAll ops2 := by
  induction ops1 with
  | nil => intro m; rfl
  | cons p ops ih =>
    intro m
    obtain ⟨k, v⟩ := p
    show (match m.set k v with
      | none => none
      | some m2 => m2.setAll (ops ++ ops2)) =
      match (match m.set k v with
        | none => none
        | some m2 => m2.setAll ops) with
      | none => none
      | some m1 => m1.setAll ops2
    cases h : m.set k v with
    | none => rfl
    | some m2 => exact ih m2

/-- Main workhorse: for `SIZE ≥ 1`, a sequence of `set` calls always
succeeds, preserves the hash builder and the table length, and leaves in
each slot the min of that slot's previous value and everything the
sequence sent to that bucket. -/
theorem setAll_spec [LinearOrder V] (hpos : 0 < SIZE) :
    ∀ (ops : List (K × V)) (m : MinMap K V SIZE), m.table.length = SIZE →
      ∃ m2, m.setAll ops = some m2 ∧ m2.hash_builder = m.hash_builder ∧
        m2.table.length = SIZE ∧
        ∀ i w, m.table[i]? = some w →
          m2.table[i]? = some (min_over w (bucket_values m.hash_builder SIZE ops i)) := by
  intro ops
  induction ops with
  | nil =>
    intro m hlen
    refine ⟨m, rfl, rfl, hlen, ?_⟩
    intro i w hw
    simpa [bucket_values_nil, min_over_nil] using hw
  | cons p ops ih =>
    obtain ⟨k, v⟩ := p
    intro m hlen
    obtain ⟨cur, hcur, hset⟩ := set_spec m hlen hpos k v
    have hlt : m.hash_builder k % SIZE < m.table.length := by
      rw [hlen]; exact Nat.mod_lt _ hpos
    have hlen1 :
        (m.table.set (m.hash_builder k % SIZE) (min cur v)).length = SIZE := by
      rw [List.length_set]; exact hlen
    obtain ⟨m2, hrun, hhb, hlen2, hspec⟩ :=
      ih { m with table := m.table.set (m.hash_builder k % SIZE) (min cur v) } hlen1
    refine ⟨m2, ?_, hhb, hlen2, ?_⟩
    · show (match m.set k v with
        | none => none
        | some m1 => m1.setAll ops) = some m2
      rw [hset]; exact hrun
    · intro i w hw
      by_cases hij : m.hash_builder k % SIZE = i
      · subst hij
        have hcw : cur = w := by
          rw [hcur] at hw; injection hw
        subst hcw
        have h1 : (m.table.set (m.hash_builder k % SIZE) (min cur v))[m.hash_builder k % SIZE]? =
            some (min cur v) := List.getElem?_set_eq_of_lt _ hlt
        have h2 := hspec _ _ h1
        rw [h2, bucket_values_cons]
        simp [min_over_cons]
      · have h1 : (m.table.set (m.hash_builder k % SIZE) (min cur v))[i]? = some w := by
          rw [List.getElem?_set_ne hij]; exact hw
        have h2 := hspec _ _ h1
        rw [h2, bucket_values_cons]
        simp [hij]

end MinMap

section Claims

variable {K V : Type} {SIZE : Nat}

/-- C9: for every table state and every key `k`, reading by key through the
indexing operation (`Index`, `map[k]`) returns the same value as `get(k)`;
in particular this holds for every table with `SIZE ≥ 1`. -/
theorem index_read_eq_get (m : MinMap K V SIZE) (k : K) :
    m.index k = m.get k := rfl

/-- C6: for every table state with `SIZE ≥ 1` and every call `set(k, v)`,
the call succeeds and the slot at index `hash(k) mod SIZE` is the only slot
that may change: every slot at a different index holds the same value after
the call as before it. -/
theorem set_mutates_one_slot [LinearOrder V] (m : MinMap K V SIZE)
    (hlen : m.table.length = SIZE) (hpos : 0 < SIZE) (k : K) (v : V) :
    ∃ m2, m.set k v = some m2 ∧
      ∀ j, j ≠ m.hash_builder k % SIZE → m2.table[j]? = m.table[j]? := by
  obtain ⟨cur, hcur, hset⟩ := MinMap.set_spec m hlen hpos k v
  refine ⟨_, hset, ?_⟩
  intro j hj
  exact List.getElem?_set_ne (Ne.symm hj)

/-- C6 witness at a concrete table of size 1. -/
theorem set_mutates_one_slot_witness :
    (⟨[5], fun _ => 0⟩ : MinMap Nat Nat 1).table.length = 1 ∧ 0 < 1 ∧
    ∃ m2, (⟨[5], fun _ => 0⟩ : MinMap Nat Nat 1).set 4 3 = some m2 ∧
      ∀ j, j ≠ (⟨[5], fun _ => 0⟩ : MinMap Nat Nat 1).hash_builder 4 % 1 →
        m2.table[j]? = (⟨[5], fun _ => 0⟩ : MinMap Nat Nat 1).table[j]? :=
  ⟨rfl, by decide,
    set_mutates_one_slot (⟨[5], fun _ => 0⟩ : MinMap Nat Nat 1) rfl (by decide) 4 3⟩

/-- C8: for every table with `SIZE ≥ 1`, `get` and `set` are total and never
fail for any key and value: the bucket index `hash(key) mod SIZE` lies in
`[0, SIZE)`, so every table access is in range and no panic branch is
reachable. -/
theorem get_set_total [LinearOrder V] (m : MinMap K V SIZE)
    (hlen : m.table.length = SIZE) (hpos : 0 < SIZE) (k : K) (v : V) :
    (∃ i, m.hash k = some i ∧ i < SIZE) ∧
      (∃ w, m.get k = some w) ∧ (∃ m2, m.set k v = some m2) := by
  have hlt : m.hash_builder k % SIZE < SIZE := Nat.mod_lt _ hpos
  refine ⟨⟨_, MinMap.hash_pos_eq m hpos k, hlt⟩, ?_, ?_⟩
  · rw [MinMap.get_spec m hpos k]
    have hl : m.hash_builder k % SIZE < m.table.length := by rw [hlen]; exact hlt
    exact ⟨_, List.getElem?_eq_getElem hl⟩
  · obtain ⟨cur, hcur, hset⟩ := MinMap.set_spec m hlen hpos k v
    exact ⟨_, hset⟩

/-- C8 witness at a concrete table of size 1. -/
theorem get_set_total_witness :
    (⟨[5], fun _ => 0⟩ : MinMap Nat Nat 1).table.length = 1 ∧ 0 < 1 ∧
    ((∃ i, (⟨[5], fun _ => 0⟩ : MinMap Nat Nat 1).hash 4 = some i ∧ i < 1) ∧
      (∃ w, (⟨[5], fun _ => 0⟩ : MinMap Nat Nat 1).get 4 = some w) ∧
      (∃ m2, (⟨[5], fun _ => 0⟩ : MinMap Nat Nat 1).set 4 3 = some m2)) :=
  ⟨rfl, by decide,
    get_set_total (⟨[5], fun _ => 0⟩ : MinMap Nat Nat 1) rfl (by decide) 4 3⟩

/-- C7 counterexample: at `SIZE = 0`, construction does not fail.  `new` and
`with_hash_builder` return a table instance (with empty storage), and the
failure only shows up when `get` or `set` is first called. -/
theorem zero_size_construction_succeeds :
    ((MinMap.new (fun _ : Nat => 0) 0 : MinMap Nat Nat 0)).table = [] ∧
    ((MinMap.with_hash_builder (fun _ : Nat => 0) 0 : MinMap Nat Nat 0)).table = [] ∧
    ((MinMap.new (fun _ : Nat => 0) 0 : MinMap Nat Nat 0)).get 7 = none ∧
    ((MinMap.new (fun _ : Nat => 0) 0 : MinMap Nat Nat 0)).set 7 5 = none :=
  ⟨rfl, rfl, rfl, rfl⟩

/-- C7 amended: supplying table size `0` at construction is not rejected:
`new(init)` and `with_hash_builder(strategy, init)` return a table with
empty storage and perform no precondition check; instead, every later
`set`, `get`, or indexing call on such a table fails (remainder by zero in
the bucket computation). -/
theorem zero_size_checked_at_use [LinearOrder V] (hb rs : K → Nat) (init : V) :
    ((MinMap.new rs init : MinMap K V 0)).table = [] ∧
    ((MinMap.with_hash_builder hb init : MinMap K V 0)).table = [] ∧
    ∀ (m : MinMap K V 0) (k : K) (v : V),
      m.set k v = none ∧ m.get k = none ∧ m.index k = none := by
  refine ⟨rfl, rfl, ?_⟩
  intro m k v
  refine ⟨?_, ?_, ?_⟩ <;> simp [MinMap.set, MinMap.get, MinMap.index, MinMap.hash]

/-- C10: when `SIZE = 0`, construction itself succeeds: `new` and
`with_hash_builder` return a table with an empty storage array and perform
no precondition check; the failure (remainder by zero in the bucket
computation, `hash` returning `none`) occurs only when `set`, `get`, or
indexing is called on such a table. -/
theorem zero_size_fails_only_on_access [LinearOrder V] (hb rs : K → Nat) (init : V) :
    ((MinMap.new rs init : MinMap K V 0)).table = List.replicate 0 init ∧
    ((MinMap.with_hash_builder hb init : MinMap K V 0)).table = List.replicate 0 init ∧
    ∀ (m : MinMap K V 0) (k : K) (v : V),
      m.hash k = none ∧ m.set k v = none ∧ m.get k = none ∧ m.index k = none := by
  refine ⟨rfl, rfl, ?_⟩
  intro m k v
  refine ⟨?_, ?_, ?_, ?_⟩ <;> simp [MinMap.set, MinMap.get, MinMap.index, MinMap.hash]

/-- C2: for every `init`, key `k`, and value `v`, on a table with
`SIZE ≥ 1`, performing `new(init)` followed by `set(k, v)` makes `get(k)`
return `min(init, v)`. -/
theorem single_update_law [LinearOrder V] (hpos : 0 < SIZE) (rs : K → Nat)
    (init : V) (k : K) (v : V) :
    ∃ m2, ((MinMap.new rs init : MinMap K V SIZE)).set k v = some m2 ∧
      m2.get k = some (min init v) := by
  have hlen : ((MinMap.new rs init : MinMap K V SIZE)).table.length = SIZE := by
    simp [MinMap.new]
  obtain ⟨cur, hcur, hset⟩ := MinMap.set_spec (MinMap.new rs init) hlen hpos k v
  have hlt : rs k % SIZE < SIZE := Nat.mod_lt _ hpos
  have hcur' : cur = init := by
    have : (List.replicate SIZE init)[rs k % SIZE]? = some cur := hcur
    rw [List.getElem?_replicate, if_pos hlt] at this
    injection this with h
    exact h.symm
  refine ⟨_, hset, ?_⟩
  rw [MinMap.get_spec _ hpos]
  show ((List.replicate SIZE init).set (rs k % SIZE) (min cur v))[rs k % SIZE]? =
    some (min init v)
  rw [hcur']
  exact List.getElem?_set_eq_of_lt _ (by simpa using hlt)

/-- C2 witness at `SIZE = 2`, `init = 5`, `k = 3`, `v = 4`. -/
theorem single_update_law_witness :
    0 < 2 ∧
    ∃ m2, ((MinMap.new (fun _ : Nat => 0) 5 : MinMap Nat Nat 2)).set 3 4 = some m2 ∧
      m2.get 3 = some (min 5 4) :=
  ⟨by decide, single_update_law (by decide) (fun _ : Nat => 0) 5 3 4⟩

/-- C1: for every instance with `SIZE ≥ 1` and every sequence of `set`
calls after construction with sentinel `init` (by `with_hash_builder` or by
`new`), each slot `i` of the table holds exactly the minimum, under `V`'s
total order, of `init` and all values `v` passed to a `set` call whose key
hashed to bucket `i`. -/
theorem slot_min_invariant [LinearOrder V] (hpos : 0 < SIZE) (hb rs : K → Nat)
    (init : V) (ops : List (K × V)) :
    (∃ m2, ((MinMap.with_hash_builder hb init : MinMap K V SIZE)).setAll ops = some m2 ∧
        m2.table.length = SIZE ∧
        ∀ i, i < SIZE →
          m2.table[i]? = some (min_over init (bucket_values hb SIZE ops i))) ∧
    (∃ m2, ((MinMap.new rs init : MinMap K V SIZE)).setAll ops = some m2 ∧
        m2.table.length = SIZE ∧
        ∀ i, i < SIZE →
          m2.table[i]? = some (min_over init (bucket_values rs SIZE ops i))) := by
  constructor
  · obtain ⟨m2, hrun, hhb, hlen2, hspec⟩ :=
      MinMap.setAll_spec hpos ops (MinMap.with_hash_builder hb init)
        (by simp [MinMap.with_hash_builder])
    refine ⟨m2, hrun, hlen2, ?_⟩
    intro i hi
    have hw : ((MinMap.with_hash_builder hb init : MinMap K V SIZE)).table[i]? = some init := by
      show (List.replicate SIZE init)[i]? = some init
      rw [List.getElem?_replicate, if_pos hi]
    exact hspec i init hw
  · obtain ⟨m2, hrun, hhb, hlen2, hspec⟩ :=
      MinMap.setAll_spec hpos ops (MinMap.new rs init) (by simp [MinMap.new])
    refine ⟨m2, hrun, hlen2, ?_⟩
    intro i hi
    have hw : ((MinMap.new rs init : MinMap K V SIZE)).table[i]? = some init := by
      show (List.replicate SIZE init)[i]? = some init
      rw [List.getElem?_replicate, if_pos hi]
    exact hspec i init hw

/-- C1 witness at `SIZE = 1`, `init = 10`, one `set` call. -/
theorem slot_min_invariant_witness :
    0 < 1 ∧
    ((∃ m2, ((MinMap.with_hash_builder (fun _ : Nat => 0) 10 : MinMap Nat Nat 1)).setAll
          [(0, 3)] = some m2 ∧
        m2.table.length = 1 ∧
        ∀ i, i < 1 →
          m2.table[i]? = some (min_over 10 (bucket_values (fun _ : Nat => 0) 1 [(0, 3)] i))) ∧
     (∃ m2, ((MinMap.new (fun _ : Nat => 0) 10 : MinMap Nat Nat 1)).setAll
          [(0, 3)] = some m2 ∧
        m2.table.length = 1 ∧
        ∀ i, i < 1 →
          m2.table[i]? = some (min_over 10 (bucket_values (fun _ : Nat => 0) 1 [(0, 3)] i)))) :=
  ⟨by decide,
    slot_min_invariant (by decide) (fun _ : Nat => 0) (fun _ : Nat => 0) 10 [(0, 3)]⟩

/-- Evaluation rule for `set` on an explicitly given table and builder. -/
theorem set_explicit [LinearOrder V] {SIZE : Nat} (t : List V) (hb : K → Nat)
    (hpos : 0 < SIZE) (k : K) (v : V) (cur : V)
    (hcur : t[hb k % SIZE]? = some cur) :
    (⟨t, hb⟩ : MinMap K V SIZE).set k v =
      some ⟨t.set (hb k % SIZE) (min cur v), hb⟩ := by
  simp only [MinMap.set, MinMap.hash_pos_eq (⟨t, hb⟩ : MinMap K V SIZE) hpos k]
  rw [hcur]

/-- Evaluation rule for `get` on an explicitly given table and builder. -/
theorem get_explicit {SIZE : Nat} (t : List V) (hb : K → Nat)
    (hpos : 0 < SIZE) (k : K) :
    (⟨t, hb⟩ : MinMap K V SIZE).get k = t[hb k % SIZE]? :=
  MinMap.get_spec (⟨t, hb⟩ : MinMap K V SIZE) hpos k

/-- C5: for every table constructed with sentinel `init` (`SIZE ≥ 1`) and
every sequence of `set` calls, the value `get(k)` returns for any fixed key
`k` is non-increasing as the sequence extends, and at every point it is at
most `init`. -/
theorem get_monotone [LinearOrder V] (hpos : 0 < SIZE) (hb : K → Nat)
    (init : V) (ops1 ops2 : List (K × V)) (k : K) :
    ∃ m1 m2 v1 v2,
      ((MinMap.with_hash_builder hb init : MinMap K V SIZE)).setAll ops1 = some m1 ∧
      m1.setAll ops2 = some m2 ∧
      m1.get k = some v1 ∧ m2.get k = some v2 ∧ v2 ≤ v1 ∧ v1 ≤ init := by
  obtain ⟨m1, hrun1, hhb1, hlen1, hspec1⟩ :=
    MinMap.setAll_spec hpos ops1 (MinMap.with_hash_builder hb init)
      (by simp [MinMap.with_hash_builder])
  have hhb1' : m1.hash_builder = hb := hhb1
  have hi : hb k % SIZE < SIZE := Nat.mod_lt _ hpos
  have hw0 : ((MinMap.with_hash_builder hb init : MinMap K V SIZE)).table[hb k % SIZE]? =
      some init := by
    show (List.replicate SIZE init)[hb k % SIZE]? = some init
    rw [List.getElem?_replicate, if_pos hi]
  have hv1 := hspec1 _ _ hw0
  obtain ⟨m2, hrun2, hhb2, hlen2, hspec2⟩ := MinMap.setAll_spec hpos ops2 m1 hlen1
  have hhb2' : m2.hash_builder = hb := by rw [hhb2, hhb1']
  have hv2 := hspec2 _ _ hv1
  rw [hhb1'] at hv2
  refine ⟨m1, m2, min_over init (bucket_values hb SIZE ops1 (hb k % SIZE)),
    min_over (min_over init (bucket_values hb SIZE ops1 (hb k % SIZE)))
      (bucket_values hb SIZE ops2 (hb k % SIZE)),
    hrun1, hrun2, ?_, ?_, min_over_le _ _, min_over_le _ _⟩
  · rw [MinMap.get_spec m1 hpos k, hhb1']; exact hv1
  · rw [MinMap.get_spec m2 hpos k, hhb2']; exact hv2

/-- C5 witness at `SIZE = 1`, `init = 10`, `ops1 = [(0, 3)]`,
`ops2 = [(1, 7)]`, `k = 0`. -/
theorem get_monotone_witness :
    0 < 1 ∧
    ∃ m1 m2 v1 v2,
      ((MinMap.with_hash_builder (fun _ : Nat => 0) 10 : MinMap Nat Nat 1)).setAll
        [(0, 3)] = some m1 ∧
      m1.setAll [(1, 7)] = some m2 ∧
      m1.get 0 = some v1 ∧ m2.get 0 = some v2 ∧ v2 ≤ v1 ∧ v1 ≤ 10 :=
  ⟨by decide, get_monotone (by decide) (fun _ : Nat => 0) 10 [(0, 3)] [(1, 7)] 0⟩

/-- C3: on a freshly constructed table with `SIZE ≥ 1`, after `set(k1, v1)`
then `set(k2, v2)`: if `k1` and `k2` map to the same bucket then `get(k1)`
and `get(k2)` both return `min(init, v1, v2)`; otherwise `get(k1)` returns
`min(init, v1)` and `get(k2)` returns `min(init, v2)`, each unaffected by
the other update. -/
theorem collision_merge_law [LinearOrder V] (hpos : 0 < SIZE) (rs : K → Nat)
    (init : V) (k1 k2 : K) (v1 v2 : V) :
    ∃ m1 m2, ((MinMap.new rs init : MinMap K V SIZE)).set k1 v1 = some m1 ∧
      m1.set k2 v2 = some m2 ∧
      (rs k1 % SIZE = rs k2 % SIZE →
        m2.get k1 = some (min init (min v1 v2)) ∧
        m2.get k2 = some (min init (min v1 v2))) ∧
      (rs k1 % SIZE ≠ rs k2 % SIZE →
        m2.get k1 = some (min init v1) ∧ m2.get k2 = some (min init v2)) := by
  have hi1 : rs k1 % SIZE < SIZE := Nat.mod_lt _ hpos
  have hi2 : rs k2 % SIZE < SIZE := Nat.mod_lt _ hpos
  have hlen1 : ((List.replicate SIZE init).set (rs k1 % SIZE) (min init v1)).length
      = SIZE := by simp
  have h0 : (List.replicate SIZE init)[rs k1 % SIZE]? = some init := by
    rw [List.getElem?_replicate, if_pos hi1]
  have hm1 : ((MinMap.new rs init : MinMap K V SIZE)).set k1 v1 =
      some ⟨(List.replicate SIZE init).set (rs k1 % SIZE) (min init v1), rs⟩ :=
    set_explicit _ _ hpos _ _ _ h0
  by_cases hcase : rs k1 % SIZE = rs k2 % SIZE
  · have ht1 : ((List.replicate SIZE init).set (rs k1 % SIZE)
        (min init v1))[rs k2 % SIZE]? = some (min init v1) := by
      rw [← hcase]
      exact List.getElem?_set_eq_of_lt _ (by simpa using hi1)
    have hm2 : (⟨(List.replicate SIZE init).set (rs k1 % SIZE) (min init v1), rs⟩ :
        MinMap K V SIZE).set k2 v2 =
        some ⟨((List.replicate SIZE init).set (rs k1 % SIZE) (min init v1)).set
          (rs k2 % SIZE) (min (min init v1) v2), rs⟩ :=
      set_explicit _ _ hpos _ _ _ ht1
    refine ⟨_, _, hm1, hm2, fun _ => ⟨?_, ?_⟩, fun hc => absurd hcase hc⟩
    · rw [get_explicit _ _ hpos, hcase,
        List.getElem?_set_eq_of_lt _ (by simpa [hlen1] using hi2), min_assoc]
    · rw [get_explicit _ _ hpos,
        List.getElem?_set_eq_of_lt _ (by simpa [hlen1] using hi2), min_assoc]
  · have ht1 : ((List.replicate SIZE init).set (rs k1 % SIZE)
        (min init v1))[rs k2 % SIZE]? = some init := by
      rw [List.getElem?_set_ne hcase, List.getElem?_replicate, if_pos hi2]
    have hm2 : (⟨(List.replicate SIZE init).set (rs k1 % SIZE) (min init v1), rs⟩ :
        MinMap K V SIZE).set k2 v2 =
        some ⟨((List.replicate SIZE init).set (rs k1 % SIZE) (min init v1)).set
          (rs k2 % SIZE) (min init v2), rs⟩ :=
      set_explicit _ _ hpos _ _ _ ht1
    refine ⟨_, _, hm1, hm2, fun hc => absurd hc hcase, fun _ => ⟨?_, ?_⟩⟩
    · rw [get_explicit _ _ hpos, List.getElem?_set_ne (Ne.symm hcase),
        List.getElem?_set_eq_of_lt _ (by simpa using hi1)]
    · rw [get_explicit _ _ hpos,
        List.getElem?_set_eq_of_lt _ (by simpa [hlen1] using hi2)]

/-- C3 witness at `SIZE = 2`, `init = 9`, colliding and non-colliding keys
covered by the two implications at keys `0` and `1`. -/
theorem collision_merge_law_witness :
    0 < 2 ∧
    ∃ m1 m2, ((MinMap.new (fun n : Nat => n) 9 : MinMap Nat Nat 2)).set 0 5 = some m1 ∧
      m1.set 1 4 = some m2 ∧
      ((fun n : Nat => n) 0 % 2 = (fun n : Nat => n) 1 % 2 →
        m2.get 0 = some (min 9 (min 5 4)) ∧ m2.get 1 = some (min 9 (min 5 4))) ∧
      ((fun n : Nat => n) 0 % 2 ≠ (fun n : Nat => n) 1 % 2 →
        m2.get 0 = some (min 9 5) ∧ m2.get 1 = some (min 9 4)) :=
  ⟨by decide, collision_merge_law (by decide) (fun n : Nat => n) 9 0 1 5 4⟩

/-- C4: for every starting state of a table with `SIZE ≥ 1` and any two
keys whose hashes are equal, `set(k1, v1)` then `set(k2, v2)`, in either
order, yields the same state — hence the same result for every subsequent
`get` — as `set(k1, min(v1, v2))` alone, and as `set(k2, min(v1, v2))`
alone. -/
theorem set_collision_equiv [LinearOrder V] (m : MinMap K V SIZE)
    (hlen : m.table.length = SIZE) (hpos : 0 < SIZE) (k1 k2 : K)
    (hk : m.hash_builder k1 = m.hash_builder k2) (v1 v2 : V) :
    ((m.set k1 v1).bind fun x => x.set k2 v2) = m.set k1 (min v1 v2) ∧
    ((m.set k2 v2).bind fun x => x.set k1 v1) = m.set k1 (min v1 v2) ∧
    m.set k1 (min v1 v2) = m.set k2 (min v1 v2) ∧
    ∀ k3 : K,
      (((m.set k1 v1).bind fun x => x.set k2 v2).bind fun x => x.get k3) =
        ((m.set k1 (min v1 v2)).bind fun x => x.get k3) := by
  obtain ⟨t, hb⟩ := m
  have hk' : hb k1 = hb k2 := hk
  have hlen' : t.length = SIZE := hlen
  have hi1 : hb k1 % SIZE < t.length := by rw [hlen']; exact Nat.mod_lt _ hpos
  have hi2 : hb k2 % SIZE < t.length := by rw [← hk']; exact hi1
  have he : hb k2 % SIZE = hb k1 % SIZE := by rw [hk']
  obtain ⟨cur, hcur⟩ : ∃ cur, t[hb k1 % SIZE]? = some cur :=
    ⟨_, List.getElem?_eq_getElem hi1⟩
  have hcur2 : t[hb k2 % SIZE]? = some cur := by rw [he]; exact hcur
  have hs1 := set_explicit t hb hpos k1 v1 cur hcur
  have hs2 := set_explicit t hb hpos k2 v2 cur hcur2
  have hsm1 := set_explicit t hb hpos k1 (min v1 v2) cur hcur
  have hsm2 := set_explicit t hb hpos k2 (min v1 v2) cur hcur2
  have ht12 : (t.set (hb k1 % SIZE) (min cur v1))[hb k2 % SIZE]? =
      some (min cur v1) := by
    rw [he]; exact List.getElem?_set_eq_of_lt _ hi1
  have ht21 : (t.set (hb k2 % SIZE) (min cur v2))[hb k1 % SIZE]? =
      some (min cur v2) := by
    rw [← he]; exact List.getElem?_set_eq_of_lt _ hi2
  have hfirst : (((⟨t, hb⟩ : MinMap K V SIZE).set k1 v1).bind
      fun x => x.set k2 v2) = (⟨t, hb⟩ : MinMap K V SIZE).set k1 (min v1 v2) := by
    rw [hs1, Option.some_bind, set_explicit _ _ hpos _ _ _ ht12, hsm1, he,
      List.set_set, min_assoc]
  refine ⟨hfirst, ?_, ?_, ?_⟩
  · rw [hs2, Option.some_bind, set_explicit _ _ hpos _ _ _ ht21, hsm1, he,
      List.set_set, min_assoc, min_comm v2 v1]
  · rw [hsm1, hsm2, he]
  · intro k3
    rw [hfirst]

/-- C4 witness at a concrete table of size 2 with a constant hash builder,
so the two keys collide. -/
theorem set_collision_equiv_witness :
    (⟨[5, 7], fun _ => 0⟩ : MinMap Nat Nat 2).table.length = 2 ∧ 0 < 2 ∧
    (⟨[5, 7], fun _ => 0⟩ : MinMap Nat Nat 2).hash_builder 1 =
      (⟨[5, 7], fun _ => 0⟩ : MinMap Nat Nat 2).hash_builder 2 ∧
    ((((⟨[5, 7], fun _ => 0⟩ : MinMap Nat Nat 2).set 1 3).bind
        fun x => x.set 2 4) = (⟨[5, 7], fun _ => 0⟩ : MinMap Nat Nat 2).set 1 (min 3 4) ∧
      (((⟨[5, 7], fun _ => 0⟩ : MinMap Nat Nat 2).set 2 4).bind
        fun x => x.set 1 3) = (⟨[5, 7], fun _ => 0⟩ : MinMap Nat Nat 2).set 1 (min 3 4) ∧
      (⟨[5, 7], fun _ => 0⟩ : MinMap Nat Nat 2).set 1 (min 3 4) =
        (⟨[5, 7], fun _ => 0⟩ : MinMap Nat Nat 2).set 2 (min 3 4) ∧
      ∀ k3 : Nat,
        ((((⟨[5, 7], fun _ => 0⟩ : MinMap Nat Nat 2).set 1 3).bind
            fun x => x.set 2 4).bind fun x => x.get k3) =
          (((⟨[5, 7], fun _ => 0⟩ : MinMap Nat Nat 2).set 1 (min 3 4)).bind
            fun x => x.get k3)) :=
  ⟨rfl, by decide, rfl,
    set_collision_equiv (⟨[5, 7], fun _ => 0⟩ : MinMap Nat Nat 2) rfl
      (by decide) 1 2 rfl 3 4⟩

end Claims
